import Mathlib

/-
Verification of the procinfo memory-mapping parser and path-unmangling decoder.

Shallow embedding of the sources:
  src/unmangle.rs     (UnmangledPath iterator, u8_from_bytes_radix, unmangled_path)
  src/parsers.rs      (nom-style tokenizer: parse_u32_hex, parse_u64_hex, parse_u64)
  src/pid/maps.rs     (parse_maps_entry, parse_anonymous_pathname, parse_file_pathname,
                       truncate_suffix, maps_file)

Bytes are modelled as `List Nat` (each element a byte value 0..255 in the inputs of
interest; arithmetic is on Nat with explicit bounds where machine width matters).
A parser over a byte cursor is a function `Bytes → Option (α × Bytes)` returning the
value and the remaining input, or `none` on failure (nom's Error and Incomplete
outcomes are collapsed into `none`: every theorem below concerns the success set,
which is the same under either failure kind).
-/

abbrev Bytes := List Nat

/-! ## Byte classes (nom `is_digit`, `is_alphanumeric`, `is_space`, hex digits) -/

/-- ASCII decimal digit `0`..`9`. -/
def isDigitByte (c : Nat) : Bool := decide (48 ≤ c ∧ c ≤ 57)

/-- ASCII hexadecimal digit, both cases. -/
def isHexDigitByte (c : Nat) : Bool :=
  decide ((48 ≤ c ∧ c ≤ 57) ∨ (97 ≤ c ∧ c ≤ 102) ∨ (65 ≤ c ∧ c ≤ 70))

/-- ASCII alphanumeric byte (nom `is_alphanumeric`): digit or letter of either case. -/
def isAlnumByte (c : Nat) : Bool :=
  decide ((48 ≤ c ∧ c ≤ 57) ∨ (97 ≤ c ∧ c ≤ 122) ∨ (65 ≤ c ∧ c ≤ 90))

/-- nom `is_space`: ASCII space or horizontal tab. -/
def isSpaceByte (c : Nat) : Bool := decide (c = 32 ∨ c = 9)

/-! ## Rust `from_str_radix`, modelled byte-wise

`u8::from_str_radix` / `u32::from_str_radix` / `u64::from_str_radix` accept an
optional leading `+` sign followed by one or more digits of the radix
(`char::to_digit`), with a checked-overflow accumulator against the type maximum. -/

/-- Rust `char::to_digit c radix` restricted to byte values: `0`-`9` map to 0-9,
`a`-`z` to 10-35, `A`-`Z` to 10-35, and the result must be below the radix. -/
def toDigit (c r : Nat) : Option Nat :=
  let d : Option Nat :=
    if 48 ≤ c ∧ c ≤ 57 then some (c - 48)
    else if 97 ≤ c ∧ c ≤ 122 then some (c - 87)
    else if 65 ≤ c ∧ c ≤ 90 then some (c - 55)
    else none
  match d with
  | some v => if v < r then some v else none
  | none => none

/-- The digit-accumulation loop of `from_str_radix`: each step multiplies by the
radix and adds the next digit, failing on an invalid digit or when the value
would reach `bound` (the type maximum plus one). -/
def foldDigits (r bound : Nat) : Nat → Bytes → Option Nat
  | acc, [] => some acc
  | acc, c :: cs =>
    match toDigit c r with
    | none => none
    | some d => if acc * r + d < bound then foldDigits r bound (acc * r + d) cs else none

/-- Rust `uN::from_str_radix` on a byte string: empty input fails; a single leading
`+` (byte 43) is consumed (but `"+"` alone fails); then `foldDigits`. -/
def rust_from_str_radix (s : Bytes) (r bound : Nat) : Option Nat :=
  match s with
  | [] => none
  | c :: rest =>
    if c = 43 then (if rest = [] then none else foldDigits r bound 0 rest)
    else foldDigits r bound 0 (c :: rest)

/-! ## nom character-class tokenizers (src/parsers.rs) -/

/-- nom `digit`: the maximal leading run of ASCII digits; fails if empty. -/
def nom_digit (input : Bytes) : Option (Bytes × Bytes) :=
  let run := input.takeWhile isDigitByte
  if run = [] then none else some (run, input.dropWhile isDigitByte)

/-- nom `alphanumeric`: the maximal leading run of ASCII alphanumerics; fails if
empty (an empty run also fails one level up, in `from_str_radix`). -/
def nom_alphanumeric (input : Bytes) : Option (Bytes × Bytes) :=
  let run := input.takeWhile isAlnumByte
  if run = [] then none else some (run, input.dropWhile isAlnumByte)

/-- `parse_u32_hex` (src/parsers.rs:86-88): `map_res!(map_res!(alphanumeric,
from_utf8), from_str_radix 16)` into a u32. -/
def parse_u32_hex (input : Bytes) : Option (Nat × Bytes) :=
  match nom_alphanumeric input with
  | none => none
  | some (run, rest) =>
    match rust_from_str_radix run 16 4294967296 with
    | some v => some (v, rest)
    | none => none

/-- `parse_u64_hex` (src/parsers.rs:91-93): as `parse_u32_hex` but into a u64. -/
def parse_u64_hex (input : Bytes) : Option (Nat × Bytes) :=
  match nom_alphanumeric input with
  | none => none
  | some (run, rest) =>
    match rust_from_str_radix run 16 18446744073709551616 with
    | some v => some (v, rest)
    | none => none

/-- `parse_u64` (src/parsers.rs:74-75): `map_res!(map_res!(digit, from_utf8),
FromStr::from_str)` into a u64 (base 10). -/
def parse_u64 (input : Bytes) : Option (Nat × Bytes) :=
  match nom_digit input with
  | none => none
  | some (run, rest) =>
    match rust_from_str_radix run 10 18446744073709551616 with
    | some v => some (v, rest)
    | none => none

/-- Specification-side value of a run of hex digits (most significant first). -/
def hexDigitVal (c : Nat) : Nat :=
  if c ≤ 57 then c - 48 else if 97 ≤ c then c - 87 else c - 55

/-- Specification-side decoding of a hex-digit run. -/
def hexValue (run : Bytes) : Nat := run.foldl (fun a c => a * 16 + hexDigitVal c) 0

/-- Modelled from the spec: `parse_usize_hex` is imported by the maps parser from the
shared tokenizer but its definition is not among the sources here; spec section 4.1
gives the contract of `hex<T>`: read one or more ASCII hex digits (case-insensitive),
fail if none, decode as an unsigned integer of the target width (usize is 64-bit),
fail on overflow. -/
def parse_usize_hex (input : Bytes) : Option (Nat × Bytes) :=
  let run := input.takeWhile isHexDigitByte
  if run = [] then none
  else if hexValue run < 18446744073709551616 then
    some (hexValue run, input.dropWhile isHexDigitByte)
  else none

/-- nom `tag!`: consume an exact byte sequence or fail. -/
def tag_p (t input : Bytes) : Option (Unit × Bytes) :=
  if t <+: input then some ((), input.drop t.length) else none

/-- nom `space`: one or more space/tab bytes. -/
def space_p (input : Bytes) : Option (Unit × Bytes) :=
  let run := input.takeWhile isSpaceByte
  if run = [] then none else some ((), input.dropWhile isSpaceByte)

/-- nom `one_of!`: consume one byte if it belongs to the given set. -/
def one_of_p (cs : Bytes) (input : Bytes) : Option (Nat × Bytes) :=
  match input with
  | [] => none
  | c :: rest => if c ∈ cs then some (c, rest) else none

/-- nom `rest`: the whole remaining input. -/
def rest_p (input : Bytes) : Option (Bytes × Bytes) :=
  some (input, ([] : Bytes))

/-! ## Path unmangling (src/unmangle.rs) -/

/-- `u8_from_bytes_radix` (src/unmangle.rs:31-34): `u8::from_str_radix` on the raw
bytes (the `str` is produced by an unchecked UTF-8 conversion; `from_str_radix`
itself inspects the bytes individually, which is what is modelled here — the
soundness of the unchecked conversion is the subject of a separate claim). -/
def u8_from_bytes_radix (bytes : Bytes) (radix : Nat) : Option Nat :=
  rust_from_str_radix bytes radix 256

/-- The `UnmangledPath` iterator (src/unmangle.rs:50-67), fused with `collect`:
if at least four bytes remain (`self.path.len() >= 4`) and the current byte is
`\` (92), try `u8_from_bytes_radix` on the next three bytes (`&self.path[1..4]`)
in base 8; when that succeeds and the value is in the escaped set, emit the value
and advance four (`&self.path[4..]`); else emit the current byte and advance one. -/
def unmangleGo (escaped path : Bytes) : Bytes :=
  match path with
  | [] => []
  | c :: rest =>
    if c = 92 ∧ 3 ≤ rest.length then
      match u8_from_bytes_radix (rest.take 3) 8 with
      | some v =>
        if v ∈ escaped then v :: unmangleGo escaped (rest.drop 3)
        else c :: unmangleGo escaped rest
      | none => c :: unmangleGo escaped rest
    else c :: unmangleGo escaped rest
termination_by path.length
decreasing_by all_goals (simp only [ List.length_drop, List.length_cons]; omega)

/-- `unmangled_path` (src/unmangle.rs:84-86). -/
def unmangled_path (path escaped : Bytes) : Bytes :=
  unmangleGo escaped path

/-- Octal digit per the claim's words: an ASCII digit in the range 0-7. -/
def octalDigit (c : Nat) : Option Nat :=
  if 48 ≤ c ∧ c ≤ 55 then some (c - 48) else none

/-- Decoder condition transcribed from claim C2's words: the three bytes following
the backslash must each be an ASCII digit 0-7, and the decoded byte is the value
of that three-digit octal literal. -/
def claimOctal3 (b : Bytes) : Option Nat :=
  match b with
  | [x, y, z] =>
    match octalDigit x, octalDigit y, octalDigit z with
    | some d0, some d1, some d2 => some (d0 * 64 + d1 * 8 + d2)
    | _, _, _ => none
  | _ => none

/-- The unmangling decoder as claim C2 states it (strict three-octal-digit escapes). -/
def unmangleClaimed (escaped path : Bytes) : Bytes :=
  match path with
  | [] => []
  | c :: rest =>
    if c = 92 ∧ 3 ≤ rest.length then
      match claimOctal3 (rest.take 3) with
      | some v =>
        if v ∈ escaped then v :: unmangleClaimed escaped (rest.drop 3)
        else c :: unmangleClaimed escaped rest
      | none => c :: unmangleClaimed escaped rest
    else c :: unmangleClaimed escaped rest
termination_by path.length
decreasing_by all_goals (simp only [ List.length_drop, List.length_cons]; omega)

/-- Escape condition of the amended claim C2: Rust `from_str_radix` base 8 on the
three bytes, which also permits a single leading `+` sign before (then only two)
octal digits, and enforces the u8 bound. -/
def octal3 (b : Bytes) : Option Nat :=
  match b with
  | [x, y, z] =>
    if x = 43 then
      match octalDigit y, octalDigit z with
      | some d1, some d2 => some (d1 * 8 + d2)
      | _, _ => none
    else
      match octalDigit x, octalDigit y, octalDigit z with
      | some d0, some d1, some d2 =>
        if d0 * 64 + d1 * 8 + d2 < 256 then some (d0 * 64 + d1 * 8 + d2) else none
      | _, _, _ => none
  | _ => none

/-- The unmangling decoder as amended claim C2 states it. -/
def unmangleAmended (escaped path : Bytes) : Bytes :=
  match path with
  | [] => []
  | c :: rest =>
    if c = 92 ∧ 3 ≤ rest.length then
      match octal3 (rest.take 3) with
      | some v =>
        if v ∈ escaped then v :: unmangleAmended escaped (rest.drop 3)
        else c :: unmangleAmended escaped rest
      | none => c :: unmangleAmended escaped rest
    else c :: unmangleAmended escaped rest
termination_by path.length
decreasing_by all_goals (simp only [ List.length_drop, List.length_cons]; omega)

/-! ## UTF-8 validity and `String::from_utf8_lossy`

Model of the Rust standard library's UTF-8 validation (`run_utf8_validation`)
and of `String::from_utf8_lossy`, which replaces each maximal invalid subpart
by the replacement character U+FFFD (bytes 239 191 189). -/

/-- UTF-8 continuation byte `0x80`..`0xBF`. -/
def isCont (c : Nat) : Bool := decide (128 ≤ c ∧ c ≤ 191)

/-- Admissible range of the second byte of a multi-byte sequence, given its lead
byte (the special rows of the stdlib validation: `0xE0`, `0xED`, `0xF0`, `0xF4`). -/
def utf8SecondOk (c c1 : Nat) : Bool :=
  if c = 224 then decide (160 ≤ c1 ∧ c1 ≤ 191)
  else if c = 237 then decide (128 ≤ c1 ∧ c1 ≤ 159)
  else if c = 240 then decide (144 ≤ c1 ∧ c1 ≤ 191)
  else if c = 244 then decide (128 ≤ c1 ∧ c1 ≤ 143)
  else isCont c1

/-- One validation step at lead byte `c` with following input `rest`: returns the
number of continuation bytes consumed beyond the lead, and whether the sequence
is well-formed.  On a malformed sequence the count is the length of the maximal
subpart that is absorbed into the single replacement (Rust `Utf8Error` semantics:
an invalid lead consumes only itself; a bad continuation leaves that byte to be
re-examined; a sequence truncated by the end of input is absorbed whole). -/
def utf8SeqInfo (c : Nat) (rest : Bytes) : Nat × Bool :=
  if c ≤ 127 then (0, true)
  else if 194 ≤ c ∧ c ≤ 223 then
    match rest with
    | c1 :: _ => if isCont c1 then (1, true) else (0, false)
    | [] => (0, false)
  else if 224 ≤ c ∧ c ≤ 239 then
    match rest with
    | c1 :: rest1 =>
      if utf8SecondOk c c1 then
        match rest1 with
        | c2 :: _ => if isCont c2 then (2, true) else (1, false)
        | [] => (1, false)
      else (0, false)
    | [] => (0, false)
  else if 240 ≤ c ∧ c ≤ 244 then
    match rest with
    | c1 :: rest1 =>
      if utf8SecondOk c c1 then
        match rest1 with
        | c2 :: rest2 =>
          if isCont c2 then
            match rest2 with
            | c3 :: _ => if isCont c3 then (3, true) else (2, false)
            | [] => (2, false)
          else (1, false)
        | [] => (1, false)
      else (0, false)
    | [] => (0, false)
  else (0, false)

/-- `String::from_utf8_lossy` re-encoded to bytes: well-formed sequences are
copied verbatim, each maximal invalid subpart becomes `EF BF BD`. -/
def from_utf8_lossy (v : Bytes) : Bytes :=
  match v with
  | [] => []
  | c :: rest =>
    let s := utf8SeqInfo c rest
    (if s.2 then c :: rest.take s.1 else [239, 191, 189]) ++
      from_utf8_lossy (rest.drop s.1)
termination_by v.length
decreasing_by all_goals (simp only [ List.length_drop, List.length_cons]; omega)

/-- Whether a byte sequence is well-formed UTF-8 (Rust `str::from_utf8` succeeds). -/
def validUtf8 (v : Bytes) : Bool :=
  match v with
  | [] => true
  | c :: rest =>
    let s := utf8SeqInfo c rest
    s.2 && validUtf8 (rest.drop s.1)
termination_by v.length
decreasing_by all_goals (simp only [ List.length_drop, List.length_cons]; omega)

/-- On well-formed UTF-8 input the lossy decoding is the identity. -/
theorem from_utf8_lossy_of_valid :
    ∀ v : Bytes, validUtf8 v = true → from_utf8_lossy v = v := by
  intro v
  induction v using from_utf8_lossy.induct with
  | case1 => intro _; simp [from_utf8_lossy]
  | case2 c rest s ih =>
    intro hv
    simp only [validUtf8, Bool.and_eq_true] at hv
    simp only [from_utf8_lossy, hv.1, if_true, List.cons_append]
    rw [ih hv.2, List.take_append_drop]

/-! ## Memory mappings data model (src/pid/maps.rs) -/

/-- glibc `makedev` as used by the `libc` crate on Linux:
`(minor & 0xff) | ((major & 0xfff) << 8) | ((minor & ~0xff) << 12) | ((major & ~0xfff) << 32)`. -/
def makedev (major minor : Nat) : Nat :=
  ((minor &&& 255) ||| ((major &&& 4095) <<< 8)) |||
    (((minor &&& 4294967040) <<< 12) ||| ((major &&& 4294963200) <<< 32))

/-- `NULL_DEV` (src/pid/maps.rs:16): null device number (anonymous mappings). -/
def NULL_DEV : Nat := 0

/-- `FileMap` (src/pid/maps.rs:51-62); `path` is the raw byte content of the
`PathBuf` (`OsString::from_vec` is byte-transparent on Unix). -/
structure FileMap where
  offset : Nat
  dev : Nat
  inode : Nat
  path : Bytes
  is_deleted : Bool
deriving DecidableEq, Repr

/-- `MemoryMapKind` (src/pid/maps.rs:66-83); the `Unknown` payload is the byte
content of the Rust `String` produced by `String::from_utf8_lossy`. -/
inductive MemoryMapKind where
  | Anonymous : MemoryMapKind
  | File : FileMap → MemoryMapKind
  | Heap : MemoryMapKind
  | Stack : MemoryMapKind
  | Unknown : Bytes → MemoryMapKind
  | Vdso : MemoryMapKind
  | Vsyscall : MemoryMapKind
  | Vvar : MemoryMapKind
deriving DecidableEq, Repr

/-- `ops::Range<usize>`; the field `stop` models Rust's `end`. -/
structure AddrRange where
  start : Nat
  stop : Nat
deriving DecidableEq, Repr

/-- `MemoryMap` (src/pid/maps.rs:89-103). -/
structure MemoryMap where
  range : AddrRange
  is_readable : Bool
  is_writable : Bool
  is_executable : Bool
  is_shared : Bool
  kind : MemoryMapKind
deriving DecidableEq, Repr

/-- `MemoryMap::file` (src/pid/maps.rs:107-112). -/
def MemoryMap.file (m : MemoryMap) : Option FileMap :=
  match m.kind with
  | MemoryMapKind.File fm => some fm
  | _ => none

/-- The bracket token `[heap]`. -/
def heapToken : Bytes := [91, 104, 101, 97, 112, 93]

/-- The bracket token `[stack` (matched as a path beginning, to absorb
per-thread suffixes such as `[stack:1234]`). -/
def stackToken : Bytes := [91, 115, 116, 97, 99, 107]

/-- The bracket token `[vdso]`. -/
def vdsoToken : Bytes := [91, 118, 100, 115, 111, 93]

/-- The bracket token `[vsyscall]`. -/
def vsyscallToken : Bytes := [91, 118, 115, 121, 115, 99, 97, 108, 108, 93]

/-- The bracket token `[vvar]`. -/
def vvarToken : Bytes := [91, 118, 118, 97, 114, 93]

/-- `parse_anonymous_pathname` (src/pid/maps.rs:134-150). -/
def parse_anonymous_pathname (bytes : Bytes) : MemoryMapKind :=
  if bytes = [] then MemoryMapKind.Anonymous
  else if bytes = heapToken then MemoryMapKind.Heap
  else if stackToken <+: bytes then MemoryMapKind.Stack
  else if bytes = vdsoToken then MemoryMapKind.Vdso
  else if bytes = vsyscallToken then MemoryMapKind.Vsyscall
  else if bytes = vvarToken then MemoryMapKind.Vvar
  else MemoryMapKind.Unknown (from_utf8_lossy bytes)

/-- The literal suffix ` (deleted)`. -/
def deletedSuffix : Bytes := [32, 40, 100, 101, 108, 101, 116, 101, 100, 41]

/-- `truncate_suffix` (src/pid/maps.rs:153-161): remove the suffix if present,
reporting whether it was removed. -/
def truncate_suffix (bytes suffix : Bytes) : Bytes × Bool :=
  if suffix <:+ bytes then (bytes.take (bytes.length - suffix.length), true)
  else (bytes, false)

/-- `parse_file_pathname` (src/pid/maps.rs:164-168): unmangle with escaped set
`b"\n"` (just the newline byte 10), then strip the ` (deleted)` suffix. -/
def parse_file_pathname (bytes : Bytes) : Bytes × Bool :=
  truncate_suffix (unmangled_path bytes [10]) deletedSuffix

/-- `perms_read` (src/pid/maps.rs:116): `map!(one_of!("r-"), |c| c == 'r')`. -/
def perms_read (input : Bytes) : Option (Bool × Bytes) :=
  (one_of_p [114, 45] input).map fun (c, rest) => (c == 114, rest)

/-- `perms_write` (src/pid/maps.rs:119). -/
def perms_write (input : Bytes) : Option (Bool × Bytes) :=
  (one_of_p [119, 45] input).map fun (c, rest) => (c == 119, rest)

/-- `perms_execute` (src/pid/maps.rs:122). -/
def perms_execute (input : Bytes) : Option (Bool × Bytes) :=
  (one_of_p [120, 45] input).map fun (c, rest) => (c == 120, rest)

/-- `perms_shared` (src/pid/maps.rs:125): `map!(one_of!("sp"), |c| c == 's')`. -/
def perms_shared (input : Bytes) : Option (Bool × Bytes) :=
  (one_of_p [115, 112] input).map fun (c, rest) => (c == 115, rest)

/-- `parse_dev` (src/pid/maps.rs:128-131): `<hex major>:<hex minor>` combined
with `makedev`. -/
def parse_dev (input : Bytes) : Option (Nat × Bytes) :=
  match parse_u32_hex input with
  | none => none
  | some (major, i1) =>
  match tag_p [58] i1 with
  | none => none
  | some (_, i2) =>
  match parse_u32_hex i2 with
  | none => none
  | some (minor, i3) => some (makedev major minor, i3)

/-- `parse_maps_entry` (src/pid/maps.rs:171-202). -/
def parse_maps_entry (input : Bytes) : Option (MemoryMap × Bytes) :=
  match parse_usize_hex input with
  | none => none
  | some (start, i1) =>
  match tag_p [45] i1 with
  | none => none
  | some (_, i2) =>
  match parse_usize_hex i2 with
  | none => none
  | some (stop, i3) =>
  match space_p i3 with
  | none => none
  | some (_, i4) =>
  match perms_read i4 with
  | none => none
  | some (is_readable, i5) =>
  match perms_write i5 with
  | none => none
  | some (is_writable, i6) =>
  match perms_execute i6 with
  | none => none
  | some (is_executable, i7) =>
  match perms_shared i7 with
  | none => none
  | some (is_shared, i8) =>
  match space_p i8 with
  | none => none
  | some (_, i9) =>
  match parse_u64_hex i9 with
  | none => none
  | some (offset, i10) =>
  match space_p i10 with
  | none => none
  | some (_, i11) =>
  match parse_dev i11 with
  | none => none
  | some (dev, i12) =>
  match space_p i12 with
  | none => none
  | some (_, i13) =>
  match parse_u64 i13 with
  | none => none
  | some (inode, i14) =>
  match space_p i14 with
  | none => none
  | some (_, i15) =>
  match rest_p i15 with
  | none => none
  | some (pathname, i16) =>
  some ({ range := { start := start, stop := stop },
          is_readable := is_readable, is_writable := is_writable,
          is_executable := is_executable, is_shared := is_shared,
          kind :=
            if dev = NULL_DEV then parse_anonymous_pathname pathname
            else MemoryMapKind.File
              { offset := offset, dev := dev, inode := inode,
                path := (parse_file_pathname pathname).1,
                is_deleted := (parse_file_pathname pathname).2 } }, i16)
/-! ## The maps-file parser (src/pid/maps.rs:205-210) -/

/-- Modelled from the spec: `map_result` is imported from the shared utility
module, whose definition is not among the sources here; spec section 4.5 and 7
give its contract: turn a per-line parse outcome into either the parsed record
or a decode failure carrying the offending line's raw content. -/
def map_result (line : Bytes) (r : Option (MemoryMap × Bytes)) :
    Except Bytes MemoryMap :=
  match r with
  | some (mm, _) => Except.ok mm
  | none => Except.error line

/-- Prepend a byte onto the first chunk of a chunk list. -/
def consHead (c : Nat) : List Bytes → List Bytes
  | [] => [[c]]
  | h :: t => (c :: h) :: t

/-- Split a buffer at every line-feed byte; a buffer with `n` line-feeds yields
`n + 1` chunks (the delimiters are not part of any chunk). -/
def splitOnNl : Bytes → List Bytes
  | [] => [[]]
  | c :: rest =>
    if c = 10 then [] :: splitOnNl rest else consHead c (splitOnNl rest)

/-- `BufRead::split(b'\n')` as a pure function: the chunks between line-feed
bytes, except that the final empty chunk produced by a buffer-final line-feed
(or by an empty buffer) is not yielded. -/
def bufSplit (data : Bytes) : List Bytes :=
  let chunks := splitOnNl data
  if chunks.getLast? = some [] then chunks.dropLast else chunks

/-- The per-line loop of `maps_file`: parse each line, short-circuiting on the
first decode failure (`collect` over `io::Result`). -/
def maps_lines : List Bytes → Except Bytes (List MemoryMap)
  | [] => Except.ok []
  | l :: ls =>
    match map_result l (parse_maps_entry l) with
    | Except.error e => Except.error e
    | Except.ok mm =>
      match maps_lines ls with
      | Except.ok ms => Except.ok (mm :: ms)
      | Except.error e => Except.error e

/-- `maps_file` (src/pid/maps.rs:205-210) on an already-read buffer:
`BufReader::split(b'\n')`, parse every line, collect. -/
def maps_file (data : Bytes) : Except Bytes (List MemoryMap) :=
  maps_lines (bufSplit data)

/-- A buffer consisting of the given lines, each terminated by a line-feed. -/
def joinNl : List Bytes → Bytes
  | [] => []
  | l :: ls => l ++ 10 :: joinNl ls

/-! ## Structural decomposition of `parse_maps_entry` -/

/-- Any successful `parse_maps_entry` run decomposes into the sixteen tokenizer
steps of the grammar, with the record fields taken verbatim from the parsed
values; in particular the trailing `rest` consumes everything (the remaining
input is empty) and the kind is selected by comparing the device number with
`NULL_DEV`. -/
lemma parse_maps_entry_fields (input : Bytes) (mm : MemoryMap) (r : Bytes)
    (h : parse_maps_entry input = some (mm, r)) :
    ∃ i1 i2 i3 i4 i5 i6 i7 i8 i9 i10 i11 i12 i13 i14 i15 offset dev inode,
      parse_usize_hex input = some (mm.range.start, i1) ∧
      tag_p [45] i1 = some ((), i2) ∧
      parse_usize_hex i2 = some (mm.range.stop, i3) ∧
      space_p i3 = some ((), i4) ∧
      perms_read i4 = some (mm.is_readable, i5) ∧
      perms_write i5 = some (mm.is_writable, i6) ∧
      perms_execute i6 = some (mm.is_executable, i7) ∧
      perms_shared i7 = some (mm.is_shared, i8) ∧
      space_p i8 = some ((), i9) ∧
      parse_u64_hex i9 = some (offset, i10) ∧
      space_p i10 = some ((), i11) ∧
      parse_dev i11 = some (dev, i12) ∧
      space_p i12 = some ((), i13) ∧
      parse_u64 i13 = some (inode, i14) ∧
      space_p i14 = some ((), i15) ∧
      r = [] ∧
      mm.kind = (if dev = NULL_DEV then parse_anonymous_pathname i15
                 else MemoryMapKind.File
                   { offset := offset, dev := dev, inode := inode,
                     path := (parse_file_pathname i15).1,
                     is_deleted := (parse_file_pathname i15).2 }) := by
  unfold parse_maps_entry at h
  split at h
  · exact Option.noConfusion h
  rename_i start i1 h1
  split at h
  · exact Option.noConfusion h
  rename_i u2 i2 h2
  split at h
  · exact Option.noConfusion h
  rename_i stop i3 h3
  split at h
  · exact Option.noConfusion h
  rename_i u4 i4 h4
  split at h
  · exact Option.noConfusion h
  rename_i is_readable i5 h5
  split at h
  · exact Option.noConfusion h
  rename_i is_writable i6 h6
  split at h
  · exact Option.noConfusion h
  rename_i is_executable i7 h7
  split at h
  · exact Option.noConfusion h
  rename_i is_shared i8 h8
  split at h
  · exact Option.noConfusion h
  rename_i u9 i9 h9
  split at h
  · exact Option.noConfusion h
  rename_i offset i10 h10
  split at h
  · exact Option.noConfusion h
  rename_i u11 i11 h11
  split at h
  · exact Option.noConfusion h
  rename_i dev i12 h12
  split at h
  · exact Option.noConfusion h
  rename_i u13 i13 h13
  split at h
  · exact Option.noConfusion h
  rename_i inode i14 h14
  split at h
  · exact Option.noConfusion h
  rename_i u15 i15 h15
  split at h
  · exact Option.noConfusion h
  rename_i pathname i16 h16
  obtain ⟨hmm, hri⟩ := Prod.mk.injEq .. ▸ Option.some.inj h
  simp only [rest_p, Option.some.injEq, Prod.mk.injEq] at h16
  obtain ⟨hp, hi16⟩ := h16
  subst hmm
  subst hp
  subst hi16
  cases u2; cases u4; cases u9; cases u11; cases u13; cases u15
  exact ⟨i1, i2, i3, i4, i5, i6, i7, i8, i9, i10, i11, i12, i13, i14, i15,
    offset, dev, inode, h1, h2, h3, h4, h5, h6, h7, h8, h9, h10, h11, h12, h13, h14,
    h15, hri.symm, rfl⟩

/-! ## Characterization of the hex tokenizer -/

/-- At radix 16, Rust `to_digit` succeeds exactly on hex digits, with the usual value. -/
lemma toDigit_sixteen (c : Nat) :
    toDigit c 16 = if isHexDigitByte c then some (hexDigitVal c) else none := by
  simp only [toDigit, isHexDigitByte, hexDigitVal]
  split_ifs <;> simp_all <;> omega

/-- At radix 8, Rust `to_digit` agrees with `octalDigit`. -/
lemma toDigit_eight (c : Nat) : toDigit c 8 = octalDigit c := by
  simp only [toDigit, octalDigit]
  split_ifs <;> simp_all <;> omega

/-- The hex accumulator never decreases. -/
lemma hexFold_le (ds : Bytes) :
    ∀ acc : Nat, acc ≤ ds.foldl (fun a c => a * 16 + hexDigitVal c) acc := by
  induction ds with
  | nil => intro acc; simp
  | cons c cs ih =>
    intro acc
    simp only [List.foldl_cons]
    exact le_trans (by omega) (ih (acc * 16 + hexDigitVal c))

/-- On a run of hex digits, the checked accumulation loop computes the run's value,
failing exactly when that value reaches the bound. -/
lemma foldDigits_sixteen (B : Nat) (ds : Bytes) :
    ∀ acc : Nat, acc < B → (∀ c ∈ ds, isHexDigitByte c = true) →
      foldDigits 16 B acc ds =
        if ds.foldl (fun a c => a * 16 + hexDigitVal c) acc < B then
          some (ds.foldl (fun a c => a * 16 + hexDigitVal c) acc)
        else none := by
  induction ds with
  | nil => intro acc hacc _; simp [foldDigits, hacc]
  | cons c cs ih =>
    intro acc hacc hmem
    have hc : isHexDigitByte c = true := hmem c (by simp)
    simp only [foldDigits, toDigit_sixteen, hc, if_true, List.foldl_cons]
    by_cases hb : acc * 16 + hexDigitVal c < B
    · rw [if_pos hb, ih _ hb (fun x hx => hmem x (by simp [hx]))]
    · rw [if_neg hb, if_neg]
      exact fun hcontra => hb (lt_of_le_of_lt (hexFold_le cs _) hcontra)

/-- A run containing a non-hex byte makes the accumulation loop fail. -/
lemma foldDigits_sixteen_none (B : Nat) (ds : Bytes) :
    ∀ acc : Nat, ¬ (∀ c ∈ ds, isHexDigitByte c = true) →
      foldDigits 16 B acc ds = none := by
  induction ds with
  | nil => intro acc h; exact absurd (by simp) h
  | cons c cs ih =>
    intro acc h
    by_cases hc : isHexDigitByte c = true
    · simp only [foldDigits, toDigit_sixteen, hc, if_true]
      by_cases hb : acc * 16 + hexDigitVal c < B
      · rw [if_pos hb]
        refine ih _ (fun hall => h ?_)
        intro x hx
        rcases List.mem_cons.mp hx with he | hm
        · exact he ▸ hc
        · exact hall x hm
      · rw [if_neg hb]
    · simp [foldDigits, toDigit_sixteen, hc]

/-- On a nonempty alphanumeric run, `from_str_radix` base 16 succeeds exactly when
every byte is a hex digit and the value is below the bound. -/
lemma rust_hex_run (B : Nat) (run : Bytes) (h0 : 0 < B)
    (hrun : ∀ c ∈ run, isAlnumByte c = true) (hne : run ≠ []) :
    rust_from_str_radix run 16 B =
      if (∀ c ∈ run, isHexDigitByte c = true) ∧ hexValue run < B then
        some (hexValue run)
      else none := by
  match run with
  | [] => exact absurd rfl hne
  | c :: cs =>
    have hc43 : ¬ c = 43 := by
      intro he
      have := hrun c (by simp)
      rw [he] at this
      simp [isAlnumByte] at this
    rw [rust_from_str_radix.eq_def]
    simp only [if_neg hc43]
    by_cases hall : ∀ x ∈ c :: cs, isHexDigitByte x = true
    · rw [foldDigits_sixteen B _ 0 h0 hall]
      simp only [hexValue, List.foldl_cons, Nat.zero_mul, Nat.zero_add, eq_true hall,
        true_and]
    · rw [foldDigits_sixteen_none B _ 0 hall, if_neg]
      exact fun hcontra => hall hcontra.1


/-! ## The unmangling step condition -/

/-- Characterization of `octalDigit` successes. -/
lemma octalDigit_some (c v : Nat) (h : octalDigit c = some v) :
    48 ≤ c ∧ c ≤ 55 ∧ v = c - 48 := by
  simp only [octalDigit] at h
  split at h
  · rename_i hc
    cases h
    exact ⟨hc.1, hc.2, rfl⟩
  · exact Option.noConfusion h

/-- Two-digit octal accumulation (the digits after a leading `+`). -/
lemma foldDigits_eight_two (b d d1 d2 : Nat) (hb : octalDigit b = some d1)
    (hd : octalDigit d = some d2) :
    foldDigits 8 256 0 [b, d] = some (d1 * 8 + d2) := by
  obtain ⟨_, _, h1⟩ := octalDigit_some b d1 hb
  obtain ⟨_, _, h2⟩ := octalDigit_some d d2 hd
  simp only [foldDigits, toDigit_eight, hb, hd]
  rw [if_pos (by omega), if_pos (by omega)]
  simp only [foldDigits, Option.some.injEq]
  omega

/-- Three-digit octal accumulation with the u8 overflow check. -/
lemma foldDigits_eight_three (a b d d0 d1 d2 : Nat) (hA : octalDigit a = some d0)
    (hb : octalDigit b = some d1) (hd : octalDigit d = some d2) :
    foldDigits 8 256 0 [a, b, d] =
      if d0 * 64 + d1 * 8 + d2 < 256 then some (d0 * 64 + d1 * 8 + d2) else none := by
  obtain ⟨_, _, h0⟩ := octalDigit_some a d0 hA
  obtain ⟨_, _, h1⟩ := octalDigit_some b d1 hb
  obtain ⟨_, _, h2⟩ := octalDigit_some d d2 hd
  simp only [foldDigits, toDigit_eight, hA, hb, hd]
  rw [if_pos (by omega), if_pos (by omega)]
  by_cases hfin : d0 * 64 + d1 * 8 + d2 < 256
  · rw [if_pos (by omega), if_pos hfin]
    simp only [foldDigits, Option.some.injEq]
    omega
  · rw [if_neg (by omega), if_neg hfin]

/-- On three-byte inputs, `u8::from_str_radix` base 8 agrees with the amended
claim's escape condition `octal3`. -/
lemma u8_radix_three (t : Bytes) (ht : t.length = 3) :
    u8_from_bytes_radix t 8 = octal3 t := by
  match t with
  | [a, b, d] =>
    by_cases ha : a = 43
    · subst ha
      simp only [u8_from_bytes_radix, rust_from_str_radix, octal3, if_pos rfl]
      rw [if_neg (by simp : ¬([b, d] : Bytes) = [])]
      rcases hb : octalDigit b with _ | d1
      · simp [foldDigits, toDigit_eight, hb]
      · rcases hd : octalDigit d with _ | d2
        · simp [foldDigits, toDigit_eight, hb, hd]
        · rw [foldDigits_eight_two b d d1 d2 hb hd]
          simp [hb, hd]
    · simp only [u8_from_bytes_radix, rust_from_str_radix, octal3, if_neg ha]
      rcases hA : octalDigit a with _ | d0
      · simp [foldDigits, toDigit_eight, hA]
      · rcases hb : octalDigit b with _ | d1
        · simp [foldDigits, toDigit_eight, hA, hb]
        · rcases hd : octalDigit d with _ | d2
          · simp [foldDigits, toDigit_eight, hA, hb, hd]
          · rw [foldDigits_eight_three a b d d0 d1 d2 hA hb hd]
            try simp [hA, hb, hd]

lemma unmangleGo_nil (escaped : Bytes) : unmangleGo escaped [] = [] := by
  rw [unmangleGo.eq_def]

lemma unmangleGo_cons (escaped : Bytes) (c : Nat) (rest : Bytes) :
    unmangleGo escaped (c :: rest) =
      if c = 92 ∧ 3 ≤ rest.length then
        match u8_from_bytes_radix (rest.take 3) 8 with
        | some v =>
          if v ∈ escaped then v :: unmangleGo escaped (rest.drop 3)
          else c :: unmangleGo escaped rest
        | none => c :: unmangleGo escaped rest
      else c :: unmangleGo escaped rest := by
  rw [unmangleGo.eq_def]

lemma unmangleAmended_nil (escaped : Bytes) : unmangleAmended escaped [] = [] := by
  rw [unmangleAmended.eq_def]

lemma unmangleAmended_cons (escaped : Bytes) (c : Nat) (rest : Bytes) :
    unmangleAmended escaped (c :: rest) =
      if c = 92 ∧ 3 ≤ rest.length then
        match octal3 (rest.take 3) with
        | some v =>
          if v ∈ escaped then v :: unmangleAmended escaped (rest.drop 3)
          else c :: unmangleAmended escaped rest
        | none => c :: unmangleAmended escaped rest
      else c :: unmangleAmended escaped rest := by
  rw [unmangleAmended.eq_def]

lemma unmangle_eq_amended (escaped path : Bytes) :
    unmangleGo escaped path = unmangleAmended escaped path := by
  induction path using unmangleGo.induct escaped with
  | case1 => rw [unmangleGo_nil, unmangleAmended_nil]
  | case2 c rest hc v hv hmem ih =>
    have ht : (rest.take 3).length = 3 := by
      simp [List.length_take]
      omega
    rw [unmangleGo_cons, unmangleAmended_cons, if_pos hc, if_pos hc,
      ← u8_radix_three _ ht, hv]
    simp only [hmem, if_true, ih]
  | case3 c rest hc v hv hmem ih =>
    have ht : (rest.take 3).length = 3 := by
      simp [List.length_take]
      omega
    rw [unmangleGo_cons, unmangleAmended_cons, if_pos hc, if_pos hc,
      ← u8_radix_three _ ht, hv]
    simp only [hmem, if_false, ih]
  | case4 c rest hc hv ih =>
    have ht : (rest.take 3).length = 3 := by
      simp [List.length_take]
      omega
    rw [unmangleGo_cons, unmangleAmended_cons, if_pos hc, if_pos hc,
      ← u8_radix_three _ ht, hv, ih]
  | case5 c rest hc ih =>
    rw [unmangleGo_cons, unmangleAmended_cons, if_neg hc, if_neg hc, ih]

lemma unmangleClaimed_nil (escaped : Bytes) : unmangleClaimed escaped [] = [] := by
  rw [unmangleClaimed.eq_def]

lemma unmangleClaimed_cons (escaped : Bytes) (c : Nat) (rest : Bytes) :
    unmangleClaimed escaped (c :: rest) =
      if c = 92 ∧ 3 ≤ rest.length then
        match claimOctal3 (rest.take 3) with
        | some v =>
          if v ∈ escaped then v :: unmangleClaimed escaped (rest.drop 3)
          else c :: unmangleClaimed escaped rest
        | none => c :: unmangleClaimed escaped rest
      else c :: unmangleClaimed escaped rest := by
  rw [unmangleClaimed.eq_def]

/-! ## Splitting a buffer into lines -/

/-- Splitting distributes over a line followed by a line-feed, provided the line
itself is free of line-feeds. -/
lemma splitOnNl_append (l t : Bytes) (hl : (10 : Nat) ∉ l) :
    splitOnNl (l ++ 10 :: t) = l :: splitOnNl t := by
  induction l with
  | nil => simp [splitOnNl]
  | cons c l ih =>
    have hc : ¬ c = 10 := fun h => hl (by simp [h])
    have hl2 : (10 : Nat) ∉ l := fun h => hl (by simp [h])
    rw [List.cons_append, splitOnNl, if_neg hc, ih hl2, consHead]

/-- Splitting a line-feed-terminated buffer recovers the lines, plus the final
empty chunk after the last line-feed. -/
lemma splitOnNl_joinNl (lines : List Bytes) (h : ∀ l ∈ lines, (10 : Nat) ∉ l) :
    splitOnNl (joinNl lines) = lines ++ [[]] := by
  induction lines with
  | nil => rfl
  | cons l ls ih =>
    rw [joinNl, splitOnNl_append l _ (h l (by simp)),
      ih (fun x hx => h x (by simp [hx])), List.cons_append]

/-- `BufRead::split` on a line-feed-terminated buffer yields exactly the lines:
the final empty chunk is dropped. -/
lemma bufSplit_joinNl (lines : List Bytes) (h : ∀ l ∈ lines, (10 : Nat) ∉ l) :
    bufSplit (joinNl lines) = lines := by
  simp only [bufSplit, splitOnNl_joinNl lines h]
  rw [if_pos (List.getLast?_concat _), List.dropLast_concat]

/-! ## The all-or-nothing behaviour of the per-line loop -/

/-- On success, `maps_lines` returns exactly the per-line parse results, in
order: a success value exists only when every line parses. -/
lemma maps_lines_ok (ls : List Bytes) (rs : List MemoryMap)
    (h : maps_lines ls = Except.ok rs) :
    List.mapM' (fun l => Option.map Prod.fst (parse_maps_entry l)) ls = some rs := by
  induction ls generalizing rs with
  | nil =>
    cases h
    rfl
  | cons l ls ih =>
    rw [maps_lines] at h
    cases hpe : parse_maps_entry l with
    | none => rw [hpe] at h; exact Except.noConfusion h
    | some p =>
      obtain ⟨mm, rest⟩ := p
      rw [hpe] at h
      simp only [map_result] at h
      cases hrec : maps_lines ls with
      | error e => rw [hrec] at h; exact Except.noConfusion h
      | ok ms =>
        rw [hrec] at h
        cases h
        rw [List.mapM'_cons]
        simp [hpe, ih ms hrec]

/-- On failure, the error is the raw content of the first line that fails to
parse: every earlier line parses, and no records are returned. -/
lemma maps_lines_error (ls : List Bytes) (e : Bytes)
    (h : maps_lines ls = Except.error e) :
    ∃ pre post, ls = pre ++ e :: post ∧ parse_maps_entry e = none ∧
      ∀ l ∈ pre, (parse_maps_entry l).isSome = true := by
  induction ls generalizing e with
  | nil => exact Except.noConfusion h
  | cons l ls ih =>
    rw [maps_lines] at h
    cases hpe : parse_maps_entry l with
    | none =>
      rw [hpe] at h
      simp only [map_result] at h
      cases h
      exact ⟨[], ls, rfl, hpe, by simp⟩
    | some p =>
      obtain ⟨mm, rest⟩ := p
      rw [hpe] at h
      simp only [map_result] at h
      cases hrec : maps_lines ls with
      | ok ms => rw [hrec] at h; exact Except.noConfusion h
      | error e2 =>
        rw [hrec] at h
        cases h
        obtain ⟨pre, post, hsplit, hfail, hall⟩ := ih e hrec
        refine ⟨l :: pre, post, by simp [hsplit], hfail, ?_⟩
        intro x hx
        rcases List.mem_cons.mp hx with he | hm
        · subst he
          simp [hpe]
        · exact hall x hm

/-! ## Claim C9 -/

/-- C9: for all byte sequences containing no backslash, and for every
escaped-byte set, the unmangling decoder is the identity function. -/
theorem C9_no_backslash_identity (path escaped : Bytes) (h : (92 : Nat) ∉ path) :
    unmangled_path path escaped = path := by
  unfold unmangled_path
  induction path with
  | nil => exact unmangleGo_nil escaped
  | cons c rest ih =>
    have hc : ¬ c = 92 := fun he => h (by simp [he])
    rw [unmangleGo_cons, if_neg (fun hand => hc hand.1),
      ih (fun hm => h (by simp [hm]))]

/-- Witness for C9 at the concrete backslash-free input `abc`. -/
theorem C9_no_backslash_identity_witness :
    (92 : Nat) ∉ ([97, 98, 99] : Bytes) ∧
      unmangled_path [97, 98, 99] [10] = [97, 98, 99] :=
  ⟨by decide, C9_no_backslash_identity [97, 98, 99] [10] (by decide)⟩

/-! ## Claim C2 -/

/-- C2 counterexample: on input `\+12` with escaped set {newline}, the decoder
emits the decoded newline and advances four positions even though `+` is not an
ASCII digit 0-7, because Rust `from_str_radix` accepts a leading `+` sign; the
claim as stated requires the byte `\` to be emitted verbatim here. -/
theorem C2_plus_sign_counterexample :
    unmangled_path [92, 43, 49, 50] [10] = [10] ∧
    unmangleClaimed [10] [92, 43, 49, 50] = [92, 43, 49, 50] ∧
    ([10] : Bytes) ≠ [92, 43, 49, 50] := by
  refine ⟨?_, ?_, by decide⟩
  · simp [unmangled_path, unmangleGo_cons, unmangleGo_nil, u8_from_bytes_radix,
      rust_from_str_radix, foldDigits, toDigit]
  · simp [unmangleClaimed_cons, unmangleClaimed_nil, claimOctal3, octalDigit]

/-- C2 amended: the decoder emits a decoded byte and advances four positions
exactly when the current byte is a backslash, at least three bytes follow, and
the next three bytes parse as a base-8 `u8` under Rust `from_str_radix` — that
is, either three ASCII octal digits whose value is below 256, or a leading `+`
sign followed by two ASCII octal digits — with the decoded value a member of
the escaped set; in every other case it emits the current byte verbatim and
advances one position. -/
theorem C2_decoder_amended (path escaped : Bytes) :
    unmangled_path path escaped = unmangleAmended escaped path :=
  unmangle_eq_amended escaped path

/-! ## Claim C10 -/

/-- C10 is false of the code: on the reachable input `\ 0xff 0xff 0xff` the
escape branch's guard holds (length at least four, leading backslash), so
`u8_from_bytes_radix` — and through it the unchecked UTF-8 conversion — receives
the three bytes `0xff 0xff 0xff`, which are not well-formed UTF-8; the decoder
then emits the input verbatim (byte-level model of `from_str_radix`). -/
theorem C10_unchecked_conversion_reached_with_invalid_utf8 :
    (4 ≤ ([92, 255, 255, 255] : Bytes).length ∧
      ([92, 255, 255, 255] : Bytes).head? = some 92) ∧
    validUtf8 ((([92, 255, 255, 255] : Bytes).drop 1).take 3) = false ∧
    unmangled_path [92, 255, 255, 255] [10] = [92, 255, 255, 255] := by
  refine ⟨by decide, ?_, ?_⟩
  · simp [validUtf8, utf8SeqInfo, isCont]
  · simp [unmangled_path, unmangleGo_cons, unmangleGo_nil, u8_from_bytes_radix,
      rust_from_str_radix, foldDigits, toDigit]

/-! ## Claim C8 -/

/-- C8 counterexample: the input `1g-` begins with the ASCII hex digit `1`, yet
the hex tokenizer fails instead of returning value 1 with remaining input `g-`:
nom `alphanumeric` consumes the whole run `1g` and `from_str_radix` then rejects
it. -/
theorem C8_hex_counterexample :
    isHexDigitByte 49 = true ∧ parse_u32_hex [49, 103, 45] = none := by
  decide

/-- Equality of a hex-style tokenizer body with its characterization. -/
lemma hex_parser_eq (B : Nat) (h0 : 0 < B) (input : Bytes) :
    (match nom_alphanumeric input with
     | none => none
     | some (run, rest) =>
       match rust_from_str_radix run 16 B with
       | some v => some (v, rest)
       | none => none) =
      (if input.takeWhile isAlnumByte ≠ [] ∧
          (∀ c ∈ input.takeWhile isAlnumByte, isHexDigitByte c = true) ∧
          hexValue (input.takeWhile isAlnumByte) < B then
        some (hexValue (input.takeWhile isAlnumByte), input.dropWhile isAlnumByte)
      else none) := by
  by_cases hrun : input.takeWhile isAlnumByte = []
  · simp [nom_alphanumeric, hrun]
  · simp only [nom_alphanumeric, if_neg hrun]
    rw [rust_hex_run B _ h0 (fun c hc => List.mem_takeWhile_imp hc) hrun]
    by_cases hall : ∀ c ∈ input.takeWhile isAlnumByte, isHexDigitByte c = true
    · by_cases hv : hexValue (input.takeWhile isAlnumByte) < B
      · rw [if_pos ⟨hall, hv⟩, if_pos ⟨hrun, hall, hv⟩]
      · rw [if_neg (fun hc => hv hc.2), if_neg (fun hc => hv hc.2.2)]
    · rw [if_neg (fun hc => hall hc.1), if_neg (fun hc => hall hc.2.1)]

/-- C8 amended: the hex tokenizer consumes the maximal leading run of ASCII
alphanumeric bytes; it succeeds — returning the run's hex value and the input
from the first non-alphanumeric byte — exactly when that run is nonempty,
consists only of ASCII hex digits (case-insensitive), and its value fits the
target width (u32 or u64); in every other case (including a non-hex
alphanumeric byte anywhere in the run) it fails. -/
theorem C8_hex_tokenizer_amended (input : Bytes) :
    (parse_u32_hex input =
      if input.takeWhile isAlnumByte ≠ [] ∧
          (∀ c ∈ input.takeWhile isAlnumByte, isHexDigitByte c = true) ∧
          hexValue (input.takeWhile isAlnumByte) < 4294967296 then
        some (hexValue (input.takeWhile isAlnumByte), input.dropWhile isAlnumByte)
      else none) ∧
    (parse_u64_hex input =
      if input.takeWhile isAlnumByte ≠ [] ∧
          (∀ c ∈ input.takeWhile isAlnumByte, isHexDigitByte c = true) ∧
          hexValue (input.takeWhile isAlnumByte) < 18446744073709551616 then
        some (hexValue (input.takeWhile isAlnumByte), input.dropWhile isAlnumByte)
      else none) :=
  ⟨hex_parser_eq 4294967296 (by norm_num) input,
   hex_parser_eq 18446744073709551616 (by norm_num) input⟩

/-! ## Claim C5 -/

/-- C5: the pathname-field decoder first unmangles with escaped set containing
exactly the newline byte; the deleted flag is set exactly when the unmangled
bytes end with the literal suffix ` (deleted)`, in which case exactly that
suffix is stripped once, and otherwise the unmangled bytes are returned
unchanged. -/
theorem C5_pathname_decoder (bytes : Bytes) :
    ((parse_file_pathname bytes).2 = true ↔
      deletedSuffix <:+ unmangled_path bytes [10]) ∧
    (parse_file_pathname bytes).1 ++
        (if (parse_file_pathname bytes).2 then deletedSuffix else []) =
      unmangled_path bytes [10] := by
  unfold parse_file_pathname truncate_suffix
  by_cases h : deletedSuffix <:+ unmangled_path bytes [10]
  · rw [if_pos h]
    refine ⟨by simp [h], ?_⟩
    obtain ⟨pre, hpre⟩ := h
    simp only [if_true]
    rw [← hpre]
    have hlen : (pre ++ deletedSuffix).length - deletedSuffix.length = pre.length := by
      simp
    rw [hlen, List.take_left]
  · rw [if_neg h]
    exact ⟨by simp [h], by simp⟩

/-- Witness for C5 at the concrete input `/bin/cat (deleted)`. -/
theorem C5_pathname_decoder_witness :
    ((parse_file_pathname
        [47, 98, 105, 110, 47, 99, 97, 116, 32, 40, 100, 101, 108, 101, 116,
          101, 100, 41]).2 = true ↔
      deletedSuffix <:+ unmangled_path
        [47, 98, 105, 110, 47, 99, 97, 116, 32, 40, 100, 101, 108, 101, 116,
          101, 100, 41] [10]) ∧
    (parse_file_pathname
        [47, 98, 105, 110, 47, 99, 97, 116, 32, 40, 100, 101, 108, 101, 116,
          101, 100, 41]).1 ++
        (if (parse_file_pathname
            [47, 98, 105, 110, 47, 99, 97, 116, 32, 40, 100, 101, 108, 101,
              116, 101, 100, 41]).2 then deletedSuffix else []) =
      unmangled_path
        [47, 98, 105, 110, 47, 99, 97, 116, 32, 40, 100, 101, 108, 101, 116,
          101, 100, 41] [10] :=
  C5_pathname_decoder
    [47, 98, 105, 110, 47, 99, 97, 116, 32, 40, 100, 101, 108, 101, 116, 101,
      100, 41]

/-! ## Claim C6 -/

/-- C6 counterexample: the pathname field `[` followed by the byte 0xff is a
non-empty anonymous pathname that is not a recognized token, but the resulting
unknown-anonymous record holds the lossy UTF-8 decoding `[ EF BF BD`, not the
raw bytes `[ 0xff`. -/
theorem C6_unknown_not_verbatim :
    parse_anonymous_pathname [91, 255] = MemoryMapKind.Unknown [91, 239, 191, 189] ∧
    ([91, 239, 191, 189] : Bytes) ≠ [91, 255] := by
  refine ⟨?_, by decide⟩
  rw [parse_anonymous_pathname, if_neg (by decide), if_neg (by decide),
    if_neg (by decide), if_neg (by decide), if_neg (by decide), if_neg (by decide)]
  rw [show from_utf8_lossy [91, 255] = [91, 239, 191, 189] from ?_]
  · simp [from_utf8_lossy, utf8SeqInfo, isCont, utf8SecondOk]

/-- C6 amended: the unknown-anonymous record holds the lossy UTF-8 decoding of
the raw bracket text; this is byte-for-byte the raw text whenever the text is
well-formed UTF-8 (which all kernel-emitted bracket tags are). -/
theorem C6_unknown_verbatim_when_valid_utf8 (bytes : Bytes)
    (hv : validUtf8 bytes = true) (hne : bytes ≠ []) (hheap : bytes ≠ heapToken)
    (hstack : ¬ stackToken <+: bytes) (hvdso : bytes ≠ vdsoToken)
    (hvsys : bytes ≠ vsyscallToken) (hvvar : bytes ≠ vvarToken) :
    parse_anonymous_pathname bytes = MemoryMapKind.Unknown bytes := by
  rw [parse_anonymous_pathname, if_neg hne, if_neg hheap, if_neg hstack,
    if_neg hvdso, if_neg hvsys, if_neg hvvar, from_utf8_lossy_of_valid bytes hv]

/-- Witness for C6 at the concrete unrecognized tag `[x]`. -/
theorem C6_unknown_verbatim_when_valid_utf8_witness :
    validUtf8 [91, 120, 93] = true ∧
    parse_anonymous_pathname [91, 120, 93] = MemoryMapKind.Unknown [91, 120, 93] := by
  have hv : validUtf8 [91, 120, 93] = true := by
    simp [validUtf8, utf8SeqInfo]
  exact ⟨hv, C6_unknown_verbatim_when_valid_utf8 [91, 120, 93] hv (by decide)
    (by decide) (by decide) (by decide) (by decide) (by decide)⟩

/-! ## Claim C1 -/

/-- The maps line `0-1 rw-p 0 00:01 0 /x`: device 00:01 (non-null) with inode 0. -/
def lineDev01 : Bytes :=
  [48, 45, 49, 32, 114, 119, 45, 112, 32, 48, 32, 48, 48, 58, 48, 49, 32, 48,
    32, 47, 120]

/-- The maps line `0-1 rw-p 0 00:00 0 ` (null device, empty pathname). -/
def lineAnon01 : Bytes :=
  [48, 45, 49, 32, 114, 119, 45, 112, 32, 48, 32, 48, 48, 58, 48, 48, 32, 48,
    32]

/-- The parse result of `lineAnon01`. -/
def mmAnon01 : MemoryMap :=
  { range := { start := 0, stop := 1 }, is_readable := true, is_writable := true,
    is_executable := false, is_shared := false, kind := MemoryMapKind.Anonymous }

/-- C1 counterexample: the line `0-1 rw-p 0 00:01 0 /x` has parsed inode 0, yet
the record is file-backed (classification keys on the device number, which is
`makedev 0 1 = 1`, not on the inode). -/
theorem C1_inode_zero_but_file_backed :
    (parse_maps_entry lineDev01).map (fun p => p.1.file.map FileMap.inode) =
      some (some 0) ∧
    (parse_maps_entry lineDev01).map (fun p => p.1.file.isSome) = some true :=
  ⟨rfl, rfl⟩

/-- C1 amended: for every maps line that parses successfully, the record is
classified as anonymous exactly when the parsed device field equals `NULL_DEV`
(0); when the device is 0 the pathname field is classified by
`parse_anonymous_pathname` (empty pathname gives plain anonymous, recognized
bracket tokens their special kinds, a `[stack` pathname beginning gives stack,
any other non-empty text the unknown-anonymous fallback); when the device is
non-zero the record is file-backed and carries the decoded path and deleted
flag unconditionally. -/
theorem C1_classification_keyed_on_device (input : Bytes) (mm : MemoryMap)
    (r : Bytes) (h : parse_maps_entry input = some (mm, r)) :
    ∃ i9 i10 i11 i12 i13 i14 i15 offset dev inode,
      parse_u64_hex i9 = some (offset, i10) ∧
      space_p i10 = some ((), i11) ∧
      parse_dev i11 = some (dev, i12) ∧
      space_p i12 = some ((), i13) ∧
      parse_u64 i13 = some (inode, i14) ∧
      space_p i14 = some ((), i15) ∧
      mm.kind = (if dev = NULL_DEV then parse_anonymous_pathname i15
                 else MemoryMapKind.File
                   { offset := offset, dev := dev, inode := inode,
                     path := (parse_file_pathname i15).1,
                     is_deleted := (parse_file_pathname i15).2 }) := by
  obtain ⟨i1, i2, i3, i4, i5, i6, i7, i8, i9, i10, i11, i12, i13, i14, i15,
    offset, dev, inode, _, _, _, _, _, _, _, _, _, h10, h11, h12, h13, h14, h15,
    _, hkind⟩ := parse_maps_entry_fields input mm r h
  exact ⟨i9, i10, i11, i12, i13, i14, i15, offset, dev, inode, h10, h11, h12,
    h13, h14, h15, hkind⟩

/-- Witness for C1 at the concrete anonymous line `0-1 rw-p 0 00:00 0 `. -/
theorem C1_classification_keyed_on_device_witness :
    ∃ i9 i10 i11 i12 i13 i14 i15 offset dev inode,
      parse_u64_hex i9 = some (offset, i10) ∧
      space_p i10 = some ((), i11) ∧
      parse_dev i11 = some (dev, i12) ∧
      space_p i12 = some ((), i13) ∧
      parse_u64 i13 = some (inode, i14) ∧
      space_p i14 = some ((), i15) ∧
      mmAnon01.kind = (if dev = NULL_DEV then parse_anonymous_pathname i15
                 else MemoryMapKind.File
                   { offset := offset, dev := dev, inode := inode,
                     path := (parse_file_pathname i15).1,
                     is_deleted := (parse_file_pathname i15).2 }) :=
  C1_classification_keyed_on_device lineAnon01 mmAnon01 [] rfl

/-! ## Claim C7 -/

/-- The maps line `2-1 rw-p 0 00:00 0 ` with a reversed address range. -/
def lineRev21 : Bytes :=
  [50, 45, 49, 32, 114, 119, 45, 112, 32, 48, 32, 48, 48, 58, 48, 48, 32, 48,
    32]

/-- The parse result of `lineRev21`. -/
def mmRev21 : MemoryMap :=
  { range := { start := 2, stop := 1 }, is_readable := true, is_writable := true,
    is_executable := false, is_shared := false, kind := MemoryMapKind.Anonymous }

/-- C7 counterexample: the line `2-1 rw-p 0 00:00 0 ` parses successfully into a
record whose range has start 2 and end 1, so `start < end` does not hold for
every successfully parsed record. -/
theorem C7_reversed_range_parses :
    (parse_maps_entry lineRev21).map (fun p => (p.1.range.start, p.1.range.stop)) =
      some (2, 1) ∧
    ¬ (2 < 1) :=
  ⟨rfl, by decide⟩

/-- C7 amended: every record produced by a successful parse carries start and
end exactly as the two leading hex fields of the line parse; the parser imposes
no ordering constraint between them, so `start < end` holds exactly when the
line's first field is numerically below its second. -/
theorem C7_range_carried_verbatim (input : Bytes) (mm : MemoryMap) (r : Bytes)
    (h : parse_maps_entry input = some (mm, r)) :
    ∃ i1 i2 i3, parse_usize_hex input = some (mm.range.start, i1) ∧
      tag_p [45] i1 = some ((), i2) ∧
      parse_usize_hex i2 = some (mm.range.stop, i3) := by
  obtain ⟨i1, i2, i3, i4, i5, i6, i7, i8, i9, i10, i11, i12, i13, i14, i15,
    offset, dev, inode, h1, h2, h3, _⟩ := parse_maps_entry_fields input mm r h
  exact ⟨i1, i2, i3, h1, h2, h3⟩

/-- Witness for C7 at the concrete reversed-range line. -/
theorem C7_range_carried_verbatim_witness :
    ∃ i1 i2 i3, parse_usize_hex lineRev21 = some (mmRev21.range.start, i1) ∧
      tag_p [45] i1 = some ((), i2) ∧
      parse_usize_hex i2 = some (mmRev21.range.stop, i3) :=
  C7_range_carried_verbatim lineRev21 mmRev21 [] rfl

/-! ## Claim C3 -/

/-- C3 counterexample: the buffer consisting of two line-feed bytes splits into
two empty lines, and the parser fails (with the empty line as the offending
content) instead of discarding them; the claim as stated requires an empty
success here. -/
theorem C3_interior_empty_line_fails :
    bufSplit [10, 10] = [[], []] ∧
    maps_file [10, 10] = Except.error ([] : Bytes) ∧
    Except.error ([] : Bytes) ≠ (Except.ok [] : Except Bytes (List MemoryMap)) :=
  ⟨rfl, rfl, by simp⟩

/-- C3 amended: the mapping-file parser splits the buffer on line-feed bytes and
discards only the final empty chunk arising from a buffer-final line-feed (or an
empty buffer); every other chunk, including an interior empty line, is parsed.
In particular, a buffer of line-feed-free lines each terminated by a line-feed
is parsed exactly line by line, with no spurious empty-line record from the
trailing line-feed. -/
theorem C3_trailing_empty_line_discarded (lines : List Bytes)
    (h : ∀ l ∈ lines, (10 : Nat) ∉ l) :
    maps_file (joinNl lines) = maps_lines lines := by
  unfold maps_file
  rw [bufSplit_joinNl lines h]

/-- Witness for C3: a single anonymous line followed by a line-feed yields
exactly that line's record. -/
theorem C3_trailing_empty_line_discarded_witness :
    maps_file (joinNl [lineAnon01]) = maps_lines [lineAnon01] ∧
    maps_lines [lineAnon01] = Except.ok [mmAnon01] :=
  ⟨C3_trailing_empty_line_discarded [lineAnon01] (by decide), rfl⟩

/-! ## Claim C4 -/

/-- C4: for every input buffer, the mapping-file parser either returns the
complete ordered sequence of per-line records (one per remaining line, in file
order: a success value is exactly the per-line parse results) or a single
decode failure carrying the raw content of the first line that fails to parse
(all earlier lines parse); the `Except` result type itself excludes any
partial-success mode. -/
theorem C4_all_or_nothing (data : Bytes) :
    (∀ rs, maps_file data = Except.ok rs →
      List.mapM' (fun l => Option.map Prod.fst (parse_maps_entry l))
        (bufSplit data) = some rs) ∧
    (∀ e, maps_file data = Except.error e →
      ∃ pre post, bufSplit data = pre ++ e :: post ∧ parse_maps_entry e = none ∧
        ∀ l ∈ pre, (parse_maps_entry l).isSome = true) :=
  ⟨fun rs h => maps_lines_ok _ rs h, fun e h => maps_lines_error _ e h⟩

/-- Witness for C4 at the concrete one-line buffer `x`, whose only line fails. -/
theorem C4_all_or_nothing_witness :
    ∃ pre post, bufSplit [120] = pre ++ [120] :: post ∧
      parse_maps_entry [120] = none ∧
      ∀ l ∈ pre, (parse_maps_entry l).isSome = true :=
  (C4_all_or_nothing [120]).2 [120] rfl
